import Mathlib

/-!
Verification of the SeismicWaves feature-extraction pipeline.

The Python sources (notebooks 03 and 05, plus the inference/evaluation
notebook) are shallowly embedded here: numpy/scipy float computations are
modelled over the rationals with a symbolic value type that records exact
rational results, symbolic square-root and entropy values, and NaN for
undefined results; pandas tables become lists of records; the external
waveform reader (obspy read) becomes a function returning an Option, with
none modelling a per-item read exception.
-/

namespace SeismicWaves

/-- Result of a numpy/scipy floating-point statistic, modelled symbolically:
`fin q` is the exact finite value `q`; `sqrtv q` denotes the (finite) real
square root of the nonnegative rational `q`; `skewv m2 m3` denotes
`m3 / m2 ^ (3/2)` with `m2 > 0`; `entv p` denotes the (finite) Shannon
entropy of the weight list `p` with positive total mass; `nan` is an
undefined (NaN) result such as a division of zero by zero. -/
inductive FloatV where
  | fin (q : ℚ)
  | sqrtv (q : ℚ)
  | skewv (m2 m3 : ℚ)
  | entv (p : List ℚ)
  | nan
deriving DecidableEq, Repr

/-- A discrete wavelet filter bank, as in pywt: the decomposition low-pass
and high-pass filter taps. -/
structure Wavelet where
  dec_lo : List ℚ
  dec_hi : List ℚ
deriving DecidableEq, Repr

/-- The db4 (Daubechies-4) filter bank of pywt, its IEEE-double taps written
as exact decimal rationals. The claims proved below depend only on the
filter length (8) and on linearity, never on the tap values. -/
def db4 : Wavelet :=
  { dec_lo := [-0.010597401784997278, 0.032883011666982945,
               0.030841381835986965, -0.18703481171888114,
               -0.02798376941698385, 0.6308807679295904,
               0.7148465705525415, 0.23037781330885523]
    dec_hi := [-0.23037781330885523, 0.7148465705525415,
               -0.6308807679295904, -0.02798376941698385,
               0.18703481171888114, 0.030841381835986965,
               -0.032883011666982945, -0.010597401784997278] }

/-- Value of the half-sample symmetric infinite extension of a signal at an
arbitrary integer index, as used by the pywt `symmetric` boundary mode: the
extension has period `2 n`, reading the signal forwards then backwards. -/
def symAt (x : List ℚ) (i : ℤ) : ℚ :=
  let n := x.length
  if n = 0 then 0
  else
    let m := (i % (2 * n)).toNat
    if m < n then x.getD m 0 else x.getD (2 * n - 1 - m) 0

/-- Output length of one single-level DWT channel in pywt symmetric mode:
`floor((n + flen - 1) / 2)`. -/
def dwtLen (flen n : ℕ) : ℕ := (n + flen - 1) / 2

/-- One channel of a single-level DWT: convolve the symmetric extension of
the signal with the filter and downsample by two. -/
def dwtChannel (f : List ℚ) (x : List ℚ) : List ℚ :=
  (List.range (dwtLen f.length x.length)).map (fun (k : ℕ) =>
    ((List.range f.length).map (fun (j : ℕ) =>
      f.getD j 0 * symAt x (2 * (k : ℤ) + 1 - j))).sum)

/-- Single-level DWT, as `pywt.dwt`: approximation and detail coefficients. -/
def dwt (w : Wavelet) (x : List ℚ) : List ℚ × List ℚ :=
  (dwtChannel w.dec_lo x, dwtChannel w.dec_hi x)

/-- Multi-level wavelet decomposition, as `pywt.wavedec(signal, wavelet,
level=level)`: exactly `level` cascaded single-level DWTs on the running
approximation, returning `[cA_level, cD_level, ..., cD_1]`, the coarsest
approximation first. -/
def wavedec (w : Wavelet) (level : ℕ) (x : List ℚ) : List (List ℚ) :=
  match level with
  | 0 => [x]
  | l + 1 =>
    let p := dwt w x
    wavedec w l p.1 ++ [p.2]

/-- Central moment of order `p` about the mean, `mean((x - mean x)^p)`,
the building block of `np.std`, `stats.skew` and `stats.kurtosis`. -/
def momC (p : ℕ) (xs : List ℚ) : ℚ :=
  let n : ℚ := xs.length
  let mu := xs.sum / n
  (xs.map (fun x => (x - mu) ^ p)).sum / n

/-- `np.mean`: arithmetic mean; NaN on an empty array. -/
def npMean (xs : List ℚ) : FloatV :=
  if xs.length = 0 then .nan else .fin (xs.sum / xs.length)

/-- `np.std`: square root of the mean squared deviation (population form). -/
def npStd (xs : List ℚ) : FloatV :=
  if xs.length = 0 then .nan else .sqrtv (momC 2 xs)

/-- `stats.skew` (biased): `m3 / m2^(3/2)`; NaN on a zero-variance array. -/
def spSkew (xs : List ℚ) : FloatV :=
  if xs.length = 0 then .nan
  else if momC 2 xs = 0 then .nan
  else .skewv (momC 2 xs) (momC 3 xs)

/-- `stats.kurtosis` (biased, Fisher): `m4 / m2^2 - 3`; NaN on a
zero-variance array. -/
def spKurtosis (xs : List ℚ) : FloatV :=
  if xs.length = 0 then .nan
  else if momC 2 xs = 0 then .nan
  else .fin (momC 4 xs / momC 2 xs ^ 2 - 3)

/-- `np.percentile(xs, q)` with the default linear interpolation: the value
at virtual position `q/100 * (n-1)` of the sorted data. -/
def npPercentile (q : ℚ) (xs : List ℚ) : ℚ :=
  let s := List.insertionSort (· ≤ ·) xs
  let n := s.length
  if n = 0 then 0
  else
    let pos : ℚ := q * (n - 1) / 100
    let i : ℕ := (⌊pos⌋).toNat
    let lo := s.getD i 0
    let hi := s.getD (min (i + 1) (n - 1)) 0
    lo + (pos - i) * (hi - lo)

/-- `np.percentile` as a float result: NaN only on an empty array. -/
def npPercentileV (q : ℚ) (xs : List ℚ) : FloatV :=
  if xs.length = 0 then .nan else .fin (npPercentile q xs)

/-- `np.max`: largest element. -/
def npMax (xs : List ℚ) : FloatV :=
  if xs.length = 0 then .nan else .fin (xs.foldl max (xs.headD 0))

/-- `np.min`: smallest element. -/
def npMin (xs : List ℚ) : FloatV :=
  if xs.length = 0 then .nan else .fin (xs.foldl min (xs.headD 0))

/-- `np.sum(np.abs(coef))`: the L1 norm. -/
def npSumAbs (xs : List ℚ) : FloatV :=
  .fin ((xs.map abs).sum)

/-- `np.sqrt(np.sum(coef**2))`: the L2 norm. -/
def npL2 (xs : List ℚ) : FloatV :=
  .sqrtv ((xs.map (fun x => x ^ 2)).sum)

/-- `stats.entropy(np.abs(coef))`: scipy normalizes the weights by their
sum; on an all-zero array the normalization divides zero by zero and the
result is NaN. -/
def spEntropy (xs : List ℚ) : FloatV :=
  let a := xs.map abs
  if a.sum = 0 then .nan else .entv a

/-- `np.median(np.abs(coef))`: median of absolute values, the 50th
percentile with linear interpolation. -/
def npMedianAbs (xs : List ℚ) : FloatV :=
  if xs.length = 0 then .nan else .fin (npPercentile 50 (xs.map abs))

/-- The twelve statistics appended for one coefficient band by
`extract_wavelet_features`, in source order: mean, standard deviation,
skewness, kurtosis, 75th percentile, 25th percentile, maximum, minimum,
L1 norm, L2 norm, Shannon entropy of absolute values, median of absolute
values. -/
def statVec (c : List ℚ) : List FloatV :=
  [npMean c, npStd c, spSkew c, spKurtosis c,
   npPercentileV 75 c, npPercentileV 25 c, npMax c, npMin c,
   npSumAbs c, npL2 c, spEntropy c, npMedianAbs c]

/-- `extract_wavelet_features(signal, wavelet='db4', level=4)`: wavelet
decomposition followed by the twelve statistics per band, concatenated in
band order (the `features.extend` loop builds exactly this concatenation). -/
def extract_wavelet_features (w : Wavelet) (level : ℕ) (signal : List ℚ) :
    List FloatV :=
  ((wavedec w level signal).map statVec).flatten

/-- One row of the arrival-times CSV read by `process_seismic_files`: a
waveform file reference (filenames are modelled by their numeric
identifiers) and the relative arrival time. -/
structure SRow where
  file : ℕ
  arrival_time : ℚ
deriving DecidableEq, Repr

/-- `process_seismic_files(data_path, arrival_times_csv)`: iterate the label
rows in order; for each row attempt to read the waveform (the external
obspy reader is the function `reader`, `none` modelling the per-item read
exception that the `except` clause catches and skips); on success append
the extracted features, the arrival time and the filename to the three
result lists. -/
def process_seismic_files (reader : ℕ → Option (List ℚ))
    (rows : List SRow) : List (List FloatV) × List ℚ × List ℕ :=
  match rows with
  | [] => ([], [], [])
  | r :: rest =>
    let acc := process_seismic_files reader rest
    match reader r.file with
    | none => acc
    | some signal =>
      (extract_wavelet_features db4 4 signal :: acc.1,
       r.arrival_time :: acc.2.1,
       r.file :: acc.2.2)

/-- Rows of the label table whose waveform read succeeds: exactly the rows
contributing to the outputs of `process_seismic_files`. -/
def readableRows (reader : ℕ → Option (List ℚ)) (rows : List SRow) :
    List SRow :=
  rows.filter (fun r => (reader r.file).isSome)

/-- One row of the raw picks CSV used by `match_arrival_times`: the file
identifier column `archivo` and the absolute pick time column `lec_p`
(epoch seconds). -/
structure LRow where
  archivo : ℕ
  lec_p : ℚ
deriving DecidableEq, Repr

/-- Output of `match_arrival_times`: the result table columns `file` and
`arrival_time`, plus the identifiers whose read failed (printed and
skipped by the `except` clause). -/
structure MatchResult where
  files : List ℕ
  arrival_times : List ℚ
  errors : List ℕ
deriving DecidableEq, Repr

/-- The per-row loop of `match_arrival_times` over the already-matched
rows: read the waveform window start (`readStart`, `none` modelling a read
exception), emit `lec_p - starttime` on success, log the identifier on
failure. -/
def matchLoop (readStart : ℕ → Option ℚ) (rows : List LRow) : MatchResult :=
  match rows with
  | [] => ⟨[], [], []⟩
  | r :: rest =>
    let acc := matchLoop readStart rest
    match readStart r.archivo with
    | none => ⟨acc.files, acc.arrival_times, r.archivo :: acc.errors⟩
    | some t0 =>
      ⟨r.archivo :: acc.files, (r.lec_p - t0) :: acc.arrival_times,
       acc.errors⟩

/-- `match_arrival_times(directory_path, csv_path, output_path)`: keep only
the CSV rows whose `archivo` matches a waveform file present in the
directory (whose listing is modelled by the identifier list `dirFiles`),
then compute each relative arrival time as the absolute pick time minus
the window start read from the file. -/
def match_arrival_times (dirFiles : List ℕ) (readStart : ℕ → Option ℚ)
    (rows : List LRow) : MatchResult :=
  matchLoop readStart (rows.filter (fun r => r.archivo ∈ dirFiles))

/-- Matched rows whose window-start read also succeeds: exactly the rows
emitted into the result table of `match_arrival_times`. -/
def emittedRows (dirFiles : List ℕ) (readStart : ℕ → Option ℚ)
    (rows : List LRow) : List LRow :=
  (rows.filter (fun r => r.archivo ∈ dirFiles)).filter
    (fun r => (readStart r.archivo).isSome)

/-- `pad_or_trim(signal, target_length=8000)`: keep the first
`target_length` samples if the signal is longer, right-pad with zeros if
shorter, return unchanged if the length is exactly `target_length`. -/
def pad_or_trim (signal : List ℚ) (target_length : ℕ := 8000) : List ℚ :=
  if signal.length > target_length then signal.take target_length
  else if signal.length < target_length then
    signal ++ List.replicate (target_length - signal.length) 0
  else signal

/-- Test-set size used by sklearn for `test_size=0.2`:
`ceil(0.2 * n) = ceil(n / 5)`. -/
def nTest (n : ℕ) : ℕ := (n + 4) / 5

/-- `train_test_split(df, test_size=0.2, random_state=42)`: shuffle the
items by the seeded pseudo-random permutation `perm` of the index range
(the Mersenne-Twister stream itself is external library code, so the
permutation is a parameter), then take the first `ceil(0.2 n)` shuffled
items as the test set and the rest as the training set. -/
def train_test_split {α : Type} (files : List α) (perm : List ℕ) :
    List α × List α :=
  let shuffled := perm.filterMap (fun i => files[i]?)
  (shuffled.drop (nTest files.length), shuffled.take (nTest files.length))

/-- True for leap years of the Gregorian calendar. -/
def isLeap (y : ℕ) : Bool :=
  (y % 4 = 0 && y % 100 != 0) || y % 400 = 0

/-- Length of month `m` (1-12) in year `y`. -/
def daysInMonth (y m : ℕ) : ℕ :=
  if m = 2 then (if isLeap y then 29 else 28)
  else if m = 4 ∨ m = 6 ∨ m = 9 ∨ m = 11 then 30
  else 31

/-- Days from 1970-01-01 to the first day of year `y` (for `y ≥ 1970`). -/
def daysBeforeYear (y : ℕ) : ℕ :=
  ((List.range (y - 1970)).map
    (fun k => if isLeap (1970 + k) then 366 else 365)).sum

/-- Days from the first of January to the first of month `m` in year `y`. -/
def daysBeforeMonth (y m : ℕ) : ℕ :=
  ((List.range (m - 1)).map (fun k => daysInMonth y (k + 1))).sum

/-- Epoch seconds of `datetime(y, mo, d, h, mi).timestamp()` (the naive
datetime is modelled as UTC; the notebook host timezone only shifts every
timestamp by one common constant and no claim depends on that shift). -/
def pyTimestamp (y mo d h mi : ℕ) : ℕ :=
  ((daysBeforeYear y + daysBeforeMonth y mo + (d - 1)) * 24 + h) * 3600
    + mi * 60

/-- Modelled from the spec: the absolute-timestamp reconstruction with the
reference year as an explicit input. The filename is modelled by its
eight-digit numeric value MMDDHHMM; the slices `[0:2]`, `[2:4]`, `[4:6]`,
`[6:8]` of the digit string become the corresponding decimal digit pairs. -/
def extract_datetime_spec (year : ℕ) (mmddhhmm : ℕ) : ℕ :=
  pyTimestamp year (mmddhhmm / 1000000) (mmddhhmm / 10000 % 100)
    (mmddhhmm / 100 % 100) (mmddhhmm % 100)

/-- `extract_datetime(filename)` as written in the source: parse month,
day, hour and minute from the filename digits and build the datetime with
the hard-coded base year 2024. -/
def extract_datetime (mmddhhmm : ℕ) : ℕ :=
  pyTimestamp 2024 (mmddhhmm / 1000000) (mmddhhmm / 10000 % 100)
    (mmddhhmm / 100 % 100) (mmddhhmm % 100)

/-- One row of the predictions CSV: filename (as its numeric value) and
predicted relative time. -/
structure PRow where
  file : ℕ
  predicted_time : ℚ
deriving DecidableEq, Repr

/-- The reconstruction cell: `lec_p = base_timestamp + predicted_time`
where `base_timestamp = extract_datetime(file)`, one output value per
prediction row. -/
def reconstruct_lec_p (rows : List PRow) : List ℚ :=
  rows.map (fun r => (extract_datetime r.file : ℚ) + r.predicted_time)

lemma wavedec_length (w : Wavelet) (level : ℕ) (x : List ℚ) :
    (wavedec w level x).length = level + 1 := by
  induction level generalizing x with
  | zero => rfl
  | succ l ih => simp [wavedec, ih]

lemma statVec_length (c : List ℚ) : (statVec c).length = 12 := rfl

lemma extract_wavelet_features_length (w : Wavelet) (level : ℕ)
    (signal : List ℚ) :
    (extract_wavelet_features w level signal).length = 12 * (level + 1) := by
  unfold extract_wavelet_features
  rw [List.length_flatten, List.map_map]
  have h : (wavedec w level signal).map (List.length ∘ statVec)
      = (wavedec w level signal).map (fun _ => 12) := by
    exact List.map_congr_left (fun c _ => statVec_length c)
  rw [h, List.map_const', List.sum_replicate, wavedec_length]
  simp [Nat.mul_comm]

/-- C1: for every input waveform of length at least 1, the wavelet feature
extractor under the reference configuration (db4 wavelet, 4 decomposition
levels) returns a feature vector of length exactly 12 * (4 + 1) = 60. -/
theorem feature_length_db4_level4 (signal : List ℚ)
    (hlen : 1 ≤ signal.length) :
    (extract_wavelet_features db4 4 signal).length = 60 :=
  extract_wavelet_features_length db4 4 signal

/-- Witness for C1 at the concrete one-sample signal `[1]`. -/
theorem feature_length_db4_level4_witness :
    1 ≤ ([(1 : ℚ)]).length ∧
      (extract_wavelet_features db4 4 [(1 : ℚ)]).length = 60 :=
  ⟨by decide, feature_length_db4_level4 [(1 : ℚ)] (by decide)⟩

lemma pad_or_trim_props (signal : List ℚ) :
    (pad_or_trim signal).length = 8000 ∧
      (signal.length > 8000 → pad_or_trim signal = signal.take 8000) ∧
      (signal.length < 8000 → pad_or_trim signal
        = signal ++ List.replicate (8000 - signal.length) 0) ∧
      (signal.length = 8000 → pad_or_trim signal = signal) := by
  refine ⟨?_, ?_, ?_, ?_⟩
  · unfold pad_or_trim
    rcases lt_trichotomy signal.length 8000 with h | h | h
    · simp [Nat.not_lt.mpr (Nat.le_of_lt h), h]
      omega
    · simp [h]
    · simp [h, Nat.not_lt.mpr (Nat.le_of_lt h)]
      omega
  · intro h
    simp [pad_or_trim, h]
  · intro h
    simp [pad_or_trim, Nat.not_lt.mpr (Nat.le_of_lt h), h]
  · intro h
    simp [pad_or_trim, h]

/-- C6: `pad_or_trim` always returns exactly 8000 samples, keeping the
first 8000 when the input is longer, right-padding with zeros when
shorter, and returning the input unchanged when its length is exactly
8000. -/
theorem pad_or_trim_spec (signal : List ℚ) :
    (pad_or_trim signal).length = 8000 ∧
      (signal.length > 8000 → pad_or_trim signal = signal.take 8000) ∧
      (signal.length < 8000 → pad_or_trim signal
        = signal ++ List.replicate (8000 - signal.length) 0) ∧
      (signal.length = 8000 → pad_or_trim signal = signal) :=
  pad_or_trim_props signal

/-- Witness for C6 at a concrete short signal. -/
theorem pad_or_trim_spec_witness :
    (pad_or_trim [(3 : ℚ)]).length = 8000 ∧
      pad_or_trim [(3 : ℚ)] = [(3 : ℚ)] ++ List.replicate 7999 0 := by
  refine ⟨(pad_or_trim_spec [(3 : ℚ)]).1, ?_⟩
  have h := (pad_or_trim_spec [(3 : ℚ)]).2.2.1 (by norm_num)
  simp only [List.length_cons, List.length_nil] at h
  norm_num at h
  exact h

/-- C7: `pad_or_trim` is idempotent: applying it twice yields the same
result as applying it once. -/
theorem pad_or_trim_idempotent (signal : List ℚ) :
    pad_or_trim (pad_or_trim signal) = pad_or_trim signal := by
  have hlen := (pad_or_trim_props signal).1
  exact (pad_or_trim_props (pad_or_trim signal)).2.2.2 hlen

lemma getD_replicate_zero (m k : ℕ) :
    (List.replicate m (0 : ℚ)).getD k 0 = 0 := by
  induction m generalizing k with
  | zero => simp
  | succ j ih =>
    cases k with
    | zero => simp [List.replicate_succ]
    | succ i => simp [List.replicate_succ, ih]

lemma symAt_replicate_zero (n : ℕ) (i : ℤ) :
    symAt (List.replicate n 0) i = 0 := by
  unfold symAt
  simp [getD_replicate_zero]

lemma dwtChannel_replicate_zero (f : List ℚ) (n : ℕ) :
    dwtChannel f (List.replicate n 0)
      = List.replicate (dwtLen f.length n) 0 := by
  unfold dwtChannel
  simp only [List.length_replicate]
  have h : ∀ k ∈ List.range (dwtLen f.length n),
      ((List.range f.length).map (fun (j : ℕ) =>
        f.getD j 0 * symAt (List.replicate n 0)
          (2 * (k : ℤ) + 1 - j))).sum = 0 := by
    intro k _
    have h2 : (List.range f.length).map (fun (j : ℕ) =>
        f.getD j 0 * symAt (List.replicate n 0) (2 * (k : ℤ) + 1 - j))
        = (List.range f.length).map (fun _ => (0 : ℚ)) := by
      refine List.map_congr_left (fun j _ => ?_)
      rw [symAt_replicate_zero, mul_zero]
    rw [h2, List.map_const', List.sum_replicate, smul_zero]
  rw [List.map_congr_left h, List.map_const', List.length_range]

lemma dwtLen_pos (flen n : ℕ) (hf : 2 ≤ flen) (hn : 1 ≤ n) :
    1 ≤ dwtLen flen n := by
  unfold dwtLen
  rw [Nat.le_div_iff_mul_le (by norm_num)]
  omega

lemma wavedec_replicate_zero (w : Wavelet) (hlo : 2 ≤ w.dec_lo.length)
    (hhi : 2 ≤ w.dec_hi.length) (level n : ℕ) (hn : 1 ≤ n) :
    ∀ c ∈ wavedec w level (List.replicate n 0),
      ∃ m, 1 ≤ m ∧ c = List.replicate m 0 := by
  induction level generalizing n with
  | zero =>
    intro c hc
    simp only [wavedec, List.mem_singleton] at hc
    exact ⟨n, hn, hc⟩
  | succ l ih =>
    intro c hc
    simp only [wavedec, dwt, List.mem_append, List.mem_singleton] at hc
    rcases hc with hc | hc
    · rw [dwtChannel_replicate_zero] at hc
      exact ih (dwtLen w.dec_lo.length n) (dwtLen_pos _ _ hlo hn) c hc
    · subst hc
      rw [dwtChannel_replicate_zero]
      exact ⟨dwtLen w.dec_hi.length n, dwtLen_pos _ _ hhi hn, rfl⟩

lemma momC_replicate_zero (p : ℕ) (hp : 0 < p) (m : ℕ) :
    momC p (List.replicate m 0) = 0 := by
  unfold momC
  simp [zero_pow (Nat.pos_iff_ne_zero.mp hp)]

lemma sort_replicate_zero (m : ℕ) :
    List.insertionSort (· ≤ ·) (List.replicate m (0 : ℚ))
      = List.replicate m 0 := by
  induction m with
  | zero => rfl
  | succ j ih =>
    rw [List.replicate_succ, List.insertionSort, ih]
    cases j with
    | zero => rfl
    | succ i => simp [List.replicate_succ, List.orderedInsert]

lemma npPercentile_replicate_zero (q : ℚ) (m : ℕ) :
    npPercentile q (List.replicate m 0) = 0 := by
  unfold npPercentile
  rw [sort_replicate_zero]
  simp only [List.length_replicate]
  rcases Nat.eq_zero_or_pos m with h | h
  · simp [h]
  · rw [if_neg (by omega)]
    rw [getD_replicate_zero, getD_replicate_zero]
    ring

lemma foldl_max_replicate_zero (m : ℕ) :
    (List.replicate m (0 : ℚ)).foldl max
      ((List.replicate m (0 : ℚ)).head?.getD 0) = 0 := by
  have aux : ∀ j, (List.replicate j (0 : ℚ)).foldl max 0 = 0 := by
    intro j
    induction j with
    | zero => rfl
    | succ i ih => simpa [List.replicate_succ, max_self] using ih
  cases m with
  | zero => rfl
  | succ j => simpa [List.replicate_succ, max_self] using aux j

lemma foldl_min_replicate_zero (m : ℕ) :
    (List.replicate m (0 : ℚ)).foldl min
      ((List.replicate m (0 : ℚ)).head?.getD 0) = 0 := by
  have aux : ∀ j, (List.replicate j (0 : ℚ)).foldl min 0 = 0 := by
    intro j
    induction j with
    | zero => rfl
    | succ i ih => simpa [List.replicate_succ, min_self] using ih
  cases m with
  | zero => rfl
  | succ j => simpa [List.replicate_succ, min_self] using aux j

/-- The twelve statistics of an all-zero band: every exactly-representable
statistic is 0, the standard deviation and L2 norm are the square root of
0, and the skewness, kurtosis and Shannon entropy are NaN. -/
def zeroStatVec : List FloatV :=
  [.fin 0, .sqrtv 0, .nan, .nan, .fin 0, .fin 0, .fin 0, .fin 0,
   .fin 0, .sqrtv 0, .nan, .fin 0]

lemma statVec_replicate_zero (m : ℕ) (hm : 1 ≤ m) :
    statVec (List.replicate m 0) = zeroStatVec := by
  have hne : m ≠ 0 := by omega
  have h2 := momC_replicate_zero 2 (by norm_num) m
  unfold statVec zeroStatVec npMean npStd spSkew spKurtosis npPercentileV
    npMax npMin npSumAbs npL2 spEntropy npMedianAbs
  simp [hne, h2, npPercentile_replicate_zero, foldl_max_replicate_zero,
    foldl_min_replicate_zero, List.map_replicate]

lemma extract_replicate_zero (n : ℕ) (hn : 1 ≤ n) :
    extract_wavelet_features db4 4 (List.replicate n 0)
      = (List.replicate 5 zeroStatVec).flatten := by
  unfold extract_wavelet_features
  have hmap : (wavedec db4 4 (List.replicate n 0)).map statVec
      = List.replicate 5 zeroStatVec := by
    rw [List.eq_replicate_iff]
    constructor
    · rw [List.length_map, wavedec_length]
    · intro b hb
      rcases List.mem_map.mp hb with ⟨c, hc, rfl⟩
      rcases wavedec_replicate_zero db4 (by norm_num [db4])
        (by norm_num [db4]) 4 n hn c hc with ⟨m, hm, rfl⟩
      exact statVec_replicate_zero m hm
  rw [hmap]

/-- C2 (amended): an all-zero waveform never causes an error, its feature
vector has the full 60 entries, and the exactly-representable statistics
(mean, percentiles, extrema, L1 norm, median of absolute values) of every
all-zero band are 0, while the standard deviation and L2 norm are the
square root of 0; but the Shannon entropy of an all-zero band, as computed
by `stats.entropy` of the absolute values, is NaN (its normalization
divides zero by zero), not 0, and the skewness and kurtosis of an all-zero
band are NaN as well. -/
theorem zero_waveform_features (n : ℕ) (hn : 1 ≤ n) :
    extract_wavelet_features db4 4 (List.replicate n 0)
        = (List.replicate 5 zeroStatVec).flatten ∧
      (extract_wavelet_features db4 4 (List.replicate n 0)).length = 60 ∧
      (extract_wavelet_features db4 4 (List.replicate n 0)).getD 10
        (.fin 0) = FloatV.nan := by
  refine ⟨extract_replicate_zero n hn, ?_, ?_⟩
  · rw [extract_replicate_zero n hn]
    decide
  · rw [extract_replicate_zero n hn]
    decide

/-- Witness for C2 (amended) at the concrete all-zero signal of length 8. -/
theorem zero_waveform_features_witness :
    extract_wavelet_features db4 4 (List.replicate 8 0)
        = (List.replicate 5 zeroStatVec).flatten ∧
      (extract_wavelet_features db4 4 (List.replicate 8 0)).length = 60 ∧
      (extract_wavelet_features db4 4 (List.replicate 8 0)).getD 10
        (.fin 0) = FloatV.nan :=
  zero_waveform_features 8 (by norm_num)

/-- C2 (counterexample): on the all-zero waveform of length 8, the
Shannon-entropy statistic of the first (all-zero) band is NaN, not 0, so
the feature vector does contain an undefined value. -/
theorem zero_waveform_entropy_nan :
    (extract_wavelet_features db4 4 (List.replicate 8 0)).getD 10
        (.fin 0) = FloatV.nan ∧
      FloatV.nan ≠ FloatV.fin 0 := by
  constructor
  · rw [extract_replicate_zero 8 (by norm_num)]
    decide
  · decide

lemma process_eq_filter (reader : ℕ → Option (List ℚ)) (rows : List SRow) :
    process_seismic_files reader rows
      = ((readableRows reader rows).map
           (fun r => extract_wavelet_features db4 4 ((reader r.file).getD [])),
         (readableRows reader rows).map SRow.arrival_time,
         (readableRows reader rows).map SRow.file) := by
  induction rows with
  | nil => rfl
  | cons r rest ih =>
    cases h : reader r.file with
    | none =>
      simp [process_seismic_files, readableRows, List.filter_cons, h, ih]
    | some signal =>
      simp [process_seismic_files, readableRows, List.filter_cons, h, ih]

lemma getD_map_of_lt {α β : Type} (l : List α) (f : α → β) (i : ℕ)
    (d : α) (e : β) (hi : i < l.length) :
    (l.map f).getD i e = f (l.getD i d) := by
  rw [List.getD_eq_getElem _ _ (by simpa using hi),
    List.getD_eq_getElem _ _ hi, List.getElem_map]

/-- C3: a per-item read failure never aborts the batch (the embedded batch
function is total and simply skips the item); the three returned lists are
built only from the rows whose read succeeded, have equal lengths, and at
every index the feature entry, the arrival-time entry and the filename
entry all come from one and the same label row. -/
theorem batch_alignment (reader : ℕ → Option (List ℚ)) (rows : List SRow) :
    (process_seismic_files reader rows).1.length
        = (process_seismic_files reader rows).2.1.length ∧
      (process_seismic_files reader rows).2.1.length
        = (process_seismic_files reader rows).2.2.length ∧
      ∀ i, i < (process_seismic_files reader rows).2.2.length →
        ∃ r, r ∈ rows ∧ (reader r.file).isSome = true ∧
          (process_seismic_files reader rows).2.2.getD i 0 = r.file ∧
          (process_seismic_files reader rows).2.1.getD i 0
            = r.arrival_time ∧
          (process_seismic_files reader rows).1.getD i []
            = extract_wavelet_features db4 4 ((reader r.file).getD []) := by
  have h1 : (process_seismic_files reader rows).1
      = (readableRows reader rows).map
          (fun r => extract_wavelet_features db4 4 ((reader r.file).getD []))
      := by rw [process_eq_filter]
  have h2 : (process_seismic_files reader rows).2.1
      = (readableRows reader rows).map SRow.arrival_time := by
    rw [process_eq_filter]
  have h3 : (process_seismic_files reader rows).2.2
      = (readableRows reader rows).map SRow.file := by
    rw [process_eq_filter]
  rw [h1, h2, h3]
  refine ⟨by rw [List.length_map, List.length_map],
    by rw [List.length_map, List.length_map], ?_⟩
  intro i hi
  have hi' : i < (readableRows reader rows).length := by
    simpa using hi
  have hmem : (readableRows reader rows).getD i ⟨0, 0⟩
      ∈ readableRows reader rows := by
    rw [List.getD_eq_getElem _ _ hi']
    exact List.getElem_mem hi'
  have hmem2 : (readableRows reader rows).getD i ⟨0, 0⟩
      ∈ rows.filter (fun r => (reader r.file).isSome) := hmem
  have hmemrows : (readableRows reader rows).getD i ⟨0, 0⟩ ∈ rows :=
    List.mem_of_mem_filter hmem2
  have hsome :
      (reader ((readableRows reader rows).getD i ⟨0, 0⟩).file).isSome
        = true := by
    have h := List.of_mem_filter hmem2
    simpa using h
  refine ⟨(readableRows reader rows).getD i ⟨0, 0⟩, hmemrows, hsome,
    ?_, ?_, ?_⟩
  · exact getD_map_of_lt (readableRows reader rows) SRow.file i ⟨0, 0⟩ 0 hi'
  · exact getD_map_of_lt (readableRows reader rows) SRow.arrival_time i
      ⟨0, 0⟩ 0 hi'
  · exact getD_map_of_lt (readableRows reader rows)
      (fun r => extract_wavelet_features db4 4 ((reader r.file).getD []))
      i ⟨0, 0⟩ [] hi'

/-- Witness for C3: one readable row and one unreadable row; the outputs
have length 1 and index 0 of each output comes from the readable row. -/
theorem batch_alignment_witness :
    ∃ r : SRow, r ∈ [(⟨5, 7⟩ : SRow), ⟨9, 2⟩] ∧
      ((fun f => if f = 5 then some [(1 : ℚ)] else none) r.file).isSome
          = true ∧
      (process_seismic_files
          (fun f => if f = 5 then some [(1 : ℚ)] else none)
          [⟨5, 7⟩, ⟨9, 2⟩]).2.2.getD 0 0 = r.file := by
  rcases (batch_alignment
      (fun f => if f = 5 then some [(1 : ℚ)] else none)
      [⟨5, 7⟩, ⟨9, 2⟩]).2.2 0 (by decide) with ⟨r, h1, h2, h3, _⟩
  exact ⟨r, h1, h2, h3⟩

/-- C10: the successfully processed items appear in the three returned
lists in exactly the relative order of their rows in the input label
table: each output is the in-order image of the in-order sublist of rows
whose read succeeded, so skipped items are omitted without reordering. -/
theorem batch_order (reader : ℕ → Option (List ℚ)) (rows : List SRow) :
    (process_seismic_files reader rows).2.2
        = (readableRows reader rows).map SRow.file ∧
      (process_seismic_files reader rows).2.1
        = (readableRows reader rows).map SRow.arrival_time ∧
      (process_seismic_files reader rows).1
        = (readableRows reader rows).map
            (fun r => extract_wavelet_features db4 4
              ((reader r.file).getD [])) ∧
      (readableRows reader rows).Sublist rows := by
  rw [process_eq_filter]
  exact ⟨rfl, rfl, rfl, List.filter_sublist rows⟩

lemma filterMap_getElem_range {α : Type} (l : List α) :
    (List.range l.length).filterMap (fun i => l[i]?) = l := by
  induction l with
  | nil => rfl
  | cons a t ih =>
    rw [List.length_cons, List.range_succ_eq_map, List.filterMap_cons]
    simp only [List.getElem?_cons_zero, List.filterMap_map]
    have h : (fun i => (a :: t)[i + 1]?) = fun i => t[i]? := by
      funext i
      exact List.getElem?_cons_succ
    have h2 : ((fun i => (a :: t)[i]?) ∘ Nat.succ) = fun i => t[i]? := by
      funext i
      exact List.getElem?_cons_succ
    rw [h2, ih]

lemma shuffled_perm {α : Type} (files : List α) (perm : List ℕ)
    (hperm : perm.Perm (List.range files.length)) :
    (perm.filterMap (fun i => files[i]?)).Perm files := by
  have h := hperm.filterMap (fun i => files[i]?)
  rwa [filterMap_getElem_range] at h

/-- C5: the seeded shuffle split assigns every source identity to exactly
one partition: given a duplicate-free corpus and any permutation of its
index range (the seeded Mersenne-Twister shuffle of
`train_test_split(..., random_state=42)`), the train and test partitions
are disjoint and together they are a permutation of the whole corpus, so
each identity lands in exactly one of the two. -/
theorem train_test_split_partition {α : Type} (files : List α)
    (perm : List ℕ) (hperm : perm.Perm (List.range files.length))
    (hnodup : files.Nodup) :
    ((train_test_split files perm).2
        ++ (train_test_split files perm).1).Perm files ∧
      (∀ x, x ∈ (train_test_split files perm).1
        → x ∉ (train_test_split files perm).2) ∧
      ∀ x, x ∈ files →
        (x ∈ (train_test_split files perm).1
            ∧ x ∉ (train_test_split files perm).2)
          ∨ (x ∈ (train_test_split files perm).2
            ∧ x ∉ (train_test_split files perm).1) := by
  have hsh := shuffled_perm files perm hperm
  have htd : (perm.filterMap (fun i => files[i]?)).take (nTest files.length)
      ++ (perm.filterMap (fun i => files[i]?)).drop (nTest files.length)
      = perm.filterMap (fun i => files[i]?) :=
    List.take_append_drop _ _
  have hperm2 : ((train_test_split files perm).2
      ++ (train_test_split files perm).1).Perm files := by
    unfold train_test_split
    rw [htd]
    exact hsh
  have hnd : ((train_test_split files perm).2
      ++ (train_test_split files perm).1).Nodup :=
    (hperm2.nodup_iff).mpr hnodup
  have hdisj := List.disjoint_of_nodup_append hnd
  refine ⟨hperm2, ?_, ?_⟩
  · intro x hx1 hx2
    exact hdisj hx2 hx1
  · intro x hx
    have hx2 : x ∈ (train_test_split files perm).2
        ++ (train_test_split files perm).1 := hperm2.mem_iff.mpr hx
    rcases List.mem_append.mp hx2 with h | h
    · exact Or.inr ⟨h, fun h2 => hdisj h h2⟩
    · exact Or.inl ⟨h, fun h2 => hdisj h2 h⟩

/-- Witness for C5 on a five-element corpus with a concrete shuffle. -/
theorem train_test_split_partition_witness :
    ([2, 0, 4, 1, 3] : List ℕ).Perm (List.range 5) ∧
      ∀ x, x ∈ ([0, 1, 2, 3, 4] : List ℕ) →
        (x ∈ (train_test_split [0, 1, 2, 3, 4] [2, 0, 4, 1, 3]).1
            ∧ x ∉ (train_test_split [0, 1, 2, 3, 4] [2, 0, 4, 1, 3]).2)
          ∨ (x ∈ (train_test_split [0, 1, 2, 3, 4] [2, 0, 4, 1, 3]).2
            ∧ x ∉ (train_test_split [0, 1, 2, 3, 4] [2, 0, 4, 1, 3]).1) := by
  have hperm : ([2, 0, 4, 1, 3] : List ℕ).Perm (List.range 5) := by decide
  refine ⟨hperm, ?_⟩
  exact (train_test_split_partition [0, 1, 2, 3, 4] [2, 0, 4, 1, 3]
    (by simpa using hperm) (by decide)).2.2

lemma matchLoop_eq (readStart : ℕ → Option ℚ) (rows : List LRow) :
    matchLoop readStart rows
      = ⟨(rows.filter (fun r => (readStart r.archivo).isSome)).map
           LRow.archivo,
         (rows.filter (fun r => (readStart r.archivo).isSome)).map
           (fun r => r.lec_p - (readStart r.archivo).getD 0),
         (rows.filter (fun r => (readStart r.archivo).isNone)).map
           LRow.archivo⟩ := by
  induction rows with
  | nil => rfl
  | cons r rest ih =>
    cases h : readStart r.archivo with
    | none => simp [matchLoop, List.filter_cons, h, ih]
    | some t0 => simp [matchLoop, List.filter_cons, h, ih]

/-- C4 (counterexample): with a pick-time row whose absolute pick lies
before the window start, `match_arrival_times` emits the negative label
-5, which violates the claimed bound `0 ≤ label`. -/
theorem arrival_label_negative :
    (match_arrival_times [3] (fun _ => some 10)
        [⟨3, 5⟩]).arrival_times = [-5] ∧
      ¬ (0 : ℚ) ≤ -5 := by
  constructor
  · unfold match_arrival_times
    rw [matchLoop_eq]
    simp [List.filter_cons]
    norm_num
  · norm_num

/-- C4 (amended): each emitted arrival label equals the absolute pick time
minus the window-start epoch seconds, with no bound enforced by the code;
consequently a label lies in `[0, window_duration]` exactly when the
absolute pick time lies within the window, and out-of-window picks yield
out-of-range labels that are emitted as-is. -/
theorem arrival_label_formula (dirFiles : List ℕ)
    (readStart : ℕ → Option ℚ) (rows : List LRow) (dur : ℚ)
    (hdur : 0 ≤ dur) :
    (match_arrival_times dirFiles readStart rows).arrival_times
        = (emittedRows dirFiles readStart rows).map
            (fun r => r.lec_p - (readStart r.archivo).getD 0) ∧
      ∀ r ∈ emittedRows dirFiles readStart rows,
        ((0 ≤ r.lec_p - (readStart r.archivo).getD 0
            ∧ r.lec_p - (readStart r.archivo).getD 0 ≤ dur)
          ↔ ((readStart r.archivo).getD 0 ≤ r.lec_p
            ∧ r.lec_p ≤ (readStart r.archivo).getD 0 + dur)) := by
  constructor
  · unfold match_arrival_times emittedRows
    rw [matchLoop_eq]
  · intro r _
    constructor
    · rintro ⟨h1, h2⟩
      exact ⟨by linarith, by linarith⟩
    · rintro ⟨h1, h2⟩
      exact ⟨by linarith, by linarith⟩

/-- Witness for C4 (amended) on a one-row table whose pick lies inside a
60-second window. -/
theorem arrival_label_formula_witness :
    (match_arrival_times [3] (fun _ => some 10)
        [⟨3, 25⟩]).arrival_times
      = (emittedRows [3] (fun _ => some 10) [⟨3, 25⟩]).map
          (fun r => r.lec_p - ((fun _ => some (10 : ℚ)) r.archivo).getD 0)
      ∧
      ((0 ≤ (⟨3, 25⟩ : LRow).lec_p
            - ((fun _ => some (10 : ℚ)) (⟨3, 25⟩ : LRow).archivo).getD 0
          ∧ (⟨3, 25⟩ : LRow).lec_p
            - ((fun _ => some (10 : ℚ)) (⟨3, 25⟩ : LRow).archivo).getD 0
            ≤ 60)
        ↔ (((fun _ => some (10 : ℚ)) (⟨3, 25⟩ : LRow).archivo).getD 0
            ≤ (⟨3, 25⟩ : LRow).lec_p
          ∧ (⟨3, 25⟩ : LRow).lec_p
            ≤ ((fun _ => some (10 : ℚ)) (⟨3, 25⟩ : LRow).archivo).getD 0
              + 60)) := by
  refine ⟨(arrival_label_formula [3] (fun _ => some 10) [⟨3, 25⟩] 60
    (by norm_num)).1, ?_⟩
  exact (arrival_label_formula [3] (fun _ => some 10) [⟨3, 25⟩] 60
    (by norm_num)).2 ⟨3, 25⟩ (by simp [emittedRows, List.filter_cons])

/-- C8: a label row whose source identity has no matching waveform file in
the directory is silently excluded: its identifier appears neither in the
emitted result table nor in the error log, and the function is total (no
error is raised). -/
theorem unmatched_row_silently_excluded (dirFiles : List ℕ)
    (readStart : ℕ → Option ℚ) (rows : List LRow) (a : ℕ)
    (ha : a ∉ dirFiles) :
    a ∉ (match_arrival_times dirFiles readStart rows).files ∧
      a ∉ (match_arrival_times dirFiles readStart rows).errors := by
  unfold match_arrival_times
  rw [matchLoop_eq]
  constructor
  · intro hmem
    rcases List.mem_map.mp hmem with ⟨r, hr, rfl⟩
    have hr2 : r ∈ rows.filter (fun r => r.archivo ∈ dirFiles) :=
      List.mem_of_mem_filter hr
    have := List.of_mem_filter hr2
    exact ha (by simpa using this)
  · intro hmem
    rcases List.mem_map.mp hmem with ⟨r, hr, rfl⟩
    have hr2 : r ∈ rows.filter (fun r => r.archivo ∈ dirFiles) :=
      List.mem_of_mem_filter hr
    have := List.of_mem_filter hr2
    exact ha (by simpa using this)

/-- Witness for C8: identity 9 is absent from the directory listing, so it
reaches neither the result table nor the error log. -/
theorem unmatched_row_silently_excluded_witness :
    9 ∉ (match_arrival_times [3] (fun _ => some 0)
        [⟨9, 1⟩, ⟨3, 2⟩]).files ∧
      9 ∉ (match_arrival_times [3] (fun _ => some 0)
        [⟨9, 1⟩, ⟨3, 2⟩]).errors :=
  unmatched_row_silently_excluded [3] (fun _ => some 0)
    [⟨9, 1⟩, ⟨3, 2⟩] 9 (by decide)

/-- C9 (counterexample): the reconstruction agrees everywhere with the
spec-modelled explicit-year parser applied at the constant 2024, and at
the concrete filename 01020304 it differs from the explicit-year parser
applied at 2023 — so the reference year is a hidden constant of the code,
not an explicit input. -/
theorem reconstruction_year_not_input :
    extract_datetime 1020304 = extract_datetime_spec 2024 1020304 ∧
      extract_datetime 1020304 ≠ extract_datetime_spec 2023 1020304 :=
  ⟨rfl, by decide⟩

/-- C9 (amended): for every prediction row the reconstruction computes
absolute arrival timestamp = parsed window-start epoch seconds plus the
predicted relative time, but the reference year used to parse the window
start is the implicit constant 2024 baked into `extract_datetime`, not an
explicit input of the reconstruction. -/
theorem reconstruction_fixed_reference_year (rows : List PRow) :
    reconstruct_lec_p rows
        = rows.map (fun r =>
            ((extract_datetime_spec 2024 r.file : ℕ) : ℚ)
              + r.predicted_time) ∧
      ∀ n, extract_datetime n = extract_datetime_spec 2024 n :=
  ⟨rfl, fun _ => rfl⟩

end SeismicWaves
